import Mathlib

/-!
Verification of the persistent change-detection agent
(`scripts/persistent_agent.py`).

The agent's state-carrying operations are shallowly embedded here:

* Python `dict` values keyed by strings become association lists
  (`List (String × α)`) with `dictGet` / `dictSet` / `dictUpdate` /
  `dictPop` mirroring first-match lookup, in-place overwrite with
  append-on-new-key, `dict.update`, and `dict.pop`.
* `AgentState`, `RunRecord` and the persisted state file become
  structures; wall-clock timestamps are threaded in as a `now : Nat`
  argument, and float durations (pure wall-clock measurements never
  inspected by any control flow) are omitted.
* SHA-256 hashing of a file is abstracted by a `disk` association list
  mapping a tracked name to the digest of its on-disk content; a name
  absent from `disk` is a missing file, exactly the split
  `compute_patch_digests` performs.
* Positional-call arity in Python is modelled explicitly: the parameter
  list of a function and the argument list of a call site are
  transcribed, and a call whose lengths disagree raises `TypeError`
  before (or instead of) executing the callee body.
-/

set_option maxRecDepth 4096

/-- First-match lookup, Python `d.get(k)` / `d[k]`. -/
def dictGet {α : Type} : List (String × α) → String → Option α
  | [], _ => none
  | (k, v) :: rest, key => if k = key then some v else dictGet rest key

/-- Python `k in d`. -/
def dictHasKey {α : Type} (d : List (String × α)) (key : String) : Bool :=
  d.any (fun p => p.1 = key)

/-- Python `d[k] = v`: overwrite in place when the key exists, append otherwise. -/
def dictSet {α : Type} (d : List (String × α)) (key : String) (v : α) : List (String × α) :=
  if dictHasKey d key then d.map (fun p => if p.1 = key then (key, v) else p)
  else d ++ [(key, v)]

/-- Python `d.update(other)`. -/
def dictUpdate {α : Type} (d other : List (String × α)) : List (String × α) :=
  other.foldl (fun acc p => dictSet acc p.1 p.2) d

/-- Python `d.pop(k, None)`. -/
def dictPop {α : Type} (d : List (String × α)) (key : String) : List (String × α) :=
  d.filter (fun p => p.1 ≠ key)

/-- Keys of a dict in order. -/
def dictKeys {α : Type} (d : List (String × α)) : List String :=
  d.map Prod.fst

/-- Order-preserving de-duplication keeping the first occurrence of each
name: the key order of a Python dict built by repeated insertion, and the
iteration order we fix for the set union inside `detect_changes`. -/
def firstDedupAux (seen : List String) : List String → List String
  | [] => []
  | x :: xs =>
    if x ∈ seen then firstDedupAux seen xs
    else x :: firstDedupAux (x :: seen) xs

def firstDedup (l : List String) : List String :=
  firstDedupAux [] l

/-- One row of `detect_changes` output (`details[name]` in the source). -/
structure ChangeDetail where
  previous_digest : Option String
  current_digest : Option String
  status : String
deriving DecidableEq, Repr

/-- The per-name body of the loop in `detect_changes`
(`persistent_agent.py` lines 405-425): skip when the digests agree and
the name is not in the missing set, otherwise classify and emit. -/
def changeEntry (prev current : List (String × String)) (missing : List String)
    (name : String) : Option (String × ChangeDetail) :=
  if dictGet prev name = dictGet current name ∧ name ∉ missing then none
  else
    some (name,
      ⟨dictGet prev name, dictGet current name,
       if name ∈ missing then "missing"
       else if dictGet prev name = none then "added"
       else if dictGet current name = none then "removed"
       else "modified"⟩)

/-- `detect_changes(prev, current, missing)` (`persistent_agent.py`
lines 397-427): iterate over the union of previous keys, current keys
and the missing list, returning the changed-name list and the details
map. -/
def detect_changes (prev current : List (String × String)) (missing : List String) :
    List String × List (String × ChangeDetail) :=
  let names := firstDedup (dictKeys prev ++ dictKeys current ++ missing)
  let emitted := names.filterMap (changeEntry prev current missing)
  (emitted.map Prod.fst, emitted)

/-- `summarize_change_details` (lines 430-437): counts by status. -/
def summarize_change_details (details : List (String × ChangeDetail)) :
    List (String × Nat) :=
  details.foldl
    (fun acc p => dictSet acc p.2.status ((dictGet acc p.2.status).getD 0 + 1)) []

/-- A persisted run history entry (dataclass `RunRecord`, lines 229-240).
Wall-clock duration is omitted; `timestamp` is the `now` value supplied
to the operation that created the record. `run_id = 0` plays the role of
Python `None`/non-positive ids (possible only in hand-written state
files; every id this embedding assigns is positive). -/
structure RunRecord where
  run_id : Nat
  timestamp : Nat
  changed_files : List String
  missing_files : List String
  error : Option String
  change_details : List (String × ChangeDetail)
  change_summary : List (String × Nat)
deriving DecidableEq, Repr

/-- In-memory agent state (dataclass `AgentState`, lines 284-290). -/
structure AgentState where
  digests : List (String × String)
  history : List RunRecord
  next_run_id : Nat
deriving DecidableEq, Repr

/-- The JSON payload `AgentState.save` writes to the state path
(lines 335-339). -/
structure StateFile where
  digests : List (String × String)
  history : List RunRecord
  next_run_id : Nat
deriving DecidableEq, Repr

/-- Python `l[-n:]`: the whole list when `n = 0`, otherwise the newest
`n` entries. -/
def pySliceLast {α : Type} (l : List α) (n : Nat) : List α :=
  if n = 0 then l else l.drop (l.length - n)

/-- `AgentState.save` (lines 330-341): truncate the history to the
newest `history_limit` entries (not at all when the limit is null) and
write digests, history and `next_run_id`. -/
def AgentState.save (st : AgentState) (history_limit : Option Nat) : StateFile :=
  let hist := match history_limit with
    | some l => pySliceLast st.history l
    | none => st.history
  ⟨st.digests, hist, st.next_run_id⟩

/-- The run-id normalization loop in `AgentState.load` (lines 321-325):
an entry with no positive id receives its 1-based index. -/
def normalizeIds : Nat → List RunRecord → List RunRecord
  | _, [] => []
  | i, r :: rest =>
    (if r.run_id = 0 then { r with run_id := i } else r) :: normalizeIds (i + 1) rest

/-- `AgentState.load` from an existing state file (lines 292-328):
normalize run ids, then `next_run_id = data.get("next_run_id") or
max_run_id + 1` (the stored value unless it is falsy). -/
def AgentState.load (f : StateFile) : AgentState :=
  let hist := normalizeIds 1 f.history
  let maxId := hist.foldl (fun m r => max m r.run_id) 0
  let next := if f.next_run_id = 0 then maxId + 1 else f.next_run_id
  ⟨f.digests, hist, next⟩

/-- `AgentState.load` including the missing-file branch (line 294): a
state path with no file yields a fresh state. -/
def loadState : Option StateFile → AgentState
  | none => ⟨[], [], 1⟩
  | some f => AgentState.load f

/-- `AgentState.record_run` (lines 343-372): append a record at
`next_run_id`, increment the counter, then truncate the in-memory
history when it exceeds the limit. Returns the updated state and the
assigned id. -/
def AgentState.record_run (st : AgentState) (now : Nat) (changed missing : List String)
    (history_limit : Option Nat) (error : Option String)
    (details : List (String × ChangeDetail)) (summary : List (String × Nat)) :
    AgentState × Nat :=
  let run_id := st.next_run_id
  let hist := st.history ++ [⟨run_id, now, changed, missing, error, details, summary⟩]
  let hist2 := match history_limit with
    | some l => if hist.length > l then pySliceLast hist l else hist
    | none => hist
  (⟨st.digests, hist2, st.next_run_id + 1⟩, run_id)

/-- The loop of `compute_patch_digests` (lines 383-394) over the names
of the resolved-patch dict: a name on disk contributes its digest, a
name absent from disk goes to the missing list. -/
def computeDigestsAux (disk : List (String × String)) :
    List String → List (String × String) × List String
  | [] => ([], [])
  | name :: rest =>
    let r := computeDigestsAux disk rest
    match dictGet disk name with
    | none => (r.1, name :: r.2)
    | some dg => ((name, dg) :: r.1, r.2)

/-- `compute_patch_digests` over `resolve_patch_paths` output
(lines 141-148, 383-394): the resolved-patch dict keys are the tracked
names de-duplicated in first-occurrence order. -/
def compute_patch_digests (tracked : List String) (disk : List (String × String)) :
    List (String × String) × List String :=
  computeDigestsAux disk (firstDedup tracked)

/-- The positional parameters of `render_report` (lines 534-567), in
order. Note the body additionally references `history_limit` and
`history`, which are not among them. -/
def renderReportParamNames : List String :=
  ["report_path", "run_timestamp", "run_duration", "run_id", "next_run_id",
   "log_level_name", "log_level_numeric", "log_path", "log_file_enabled",
   "agent_version", "runtime_info", "loop_enabled", "loop_interval",
   "loop_backoff", "max_iterations", "digests", "changed_files",
   "snapshot_path", "pruned_snapshots", "missing_files", "change_details",
   "tracked_files", "resolved_patches", "patch_sources", "base_dir",
   "state_path", "snapshot_dir", "snapshot_retention", "snapshots_enabled",
   "status_path", "heartbeat_path", "ci_metadata"]

/-- The positional arguments `run_once` passes to `render_report`
(lines 1367-1401), in order. -/
def runOnceRenderReportArgs : List String :=
  ["report_path", "state.history[-1].timestamp", "run_duration",
   "current_run_id", "next_run_id", "log_level_name", "log_level",
   "log_path", "log_file_enabled", "agent_version", "runtime_info",
   "history_limit", "loop_enabled", "loop_interval", "loop_backoff",
   "max_iterations", "current", "changed", "snapshot_path",
   "pruned_snapshots", "missing", "change_details", "patch_files",
   "resolved_patches", "patch_sources", "base_dir", "state_path",
   "snapshot_dir", "snapshot_retention", "snapshots_enabled",
   "status_path", "heartbeat_path", "ci_metadata"]

/-- The positional parameters of `run_once` (lines 1316-1339), in order. -/
def runOnceParamNames : List String :=
  ["base_dir", "state_path", "snapshot_dir", "snapshot_retention",
   "snapshots_enabled", "report_path", "status_path", "patch_files",
   "patch_sources", "heartbeat_path", "log_level", "log_level_name",
   "log_path", "log_file_enabled", "agent_version", "runtime_info",
   "ci_metadata", "history_limit", "loop_enabled", "loop_interval",
   "loop_backoff", "max_iterations"]

/-- The positional arguments the loop-mode branch of `main` passes to
`run_once` (lines 1843-1865), in order: `log_file_enabled` is absent. -/
def loopModeRunOnceArgs : List String :=
  ["base_dir", "state_path", "snapshot_dir", "snapshot_retention",
   "snapshots_enabled", "report_path", "status_path", "patch_files",
   "patch_sources", "heartbeat_path", "configured_log_level",
   "resolved_log_level_name", "log_path", "AGENT_VERSION", "runtime_info",
   "ci_metadata", "history_limit", "True", "args.interval", "args.backoff",
   "args.max_iterations"]

/-- The positional arguments the single-run branch of `main` passes to
`run_once` (lines 1993-2016), in order. -/
def singleRunRunOnceArgs : List String :=
  ["base_dir", "state_path", "snapshot_dir", "snapshot_retention",
   "snapshots_enabled", "report_path", "status_path", "patch_files",
   "patch_sources", "heartbeat_path", "configured_log_level",
   "resolved_log_level_name", "log_path", "log_file_enabled",
   "AGENT_VERSION", "runtime_info", "ci_metadata", "history_limit",
   "False", "args.interval", "args.backoff", "args.max_iterations"]

/-- The exception CPython raises for the `render_report` call in
`run_once`: 33 positional arguments against a 32-parameter signature. -/
def renderReportTypeError : String :=
  "TypeError: render_report() takes 32 positional arguments but 33 were given"

/-- The exception CPython raises for the loop-mode `run_once` call:
21 positional arguments against a 22-parameter signature. -/
def loopCallTypeError : String :=
  "TypeError: run_once() missing 1 required positional argument: log_file_enabled"

instance : DecidableEq (Except String Unit) := fun a b =>
  match a, b with
  | Except.ok (), Except.ok () => isTrue rfl
  | Except.ok (), Except.error _ => isFalse (fun h => Except.noConfusion h)
  | Except.error _, Except.ok () => isFalse (fun h => Except.noConfusion h)
  | Except.error x, Except.error y =>
    if h : x = y then isTrue (by rw [h])
    else isFalse (fun hc => h (Except.error.inj hc))

/-- Everything `run_once` leaves behind: the state file it saved, the
outcome of the attempt, and the intermediate values the claims inspect. -/
structure RunOnceResult where
  persisted : StateFile
  outcome : Except String Unit
  current : List (String × String)
  missing : List String
  changed : List String
  details : List (String × ChangeDetail)
  run_id : Nat
deriving DecidableEq, Repr

/-- `run_once` (lines 1316-1478): load the state file, hash the tracked
files against the disk, detect changes, drop tracked-but-missing names
from the digest map, overlay the current digests, record the run, save
the state file, and then call `render_report`. The snapshot step
(`apply_plan`, modelled separately below) touches only the snapshot
directory, never the state. The `render_report` call supplies
`runOnceRenderReportArgs.length` positional arguments to a
`renderReportParamNames.length`-parameter function; when those lengths
disagree the call raises after the save, so `run_once` ends in
`Except.error` with the state file already advanced. -/
def run_once (prevFile : Option StateFile) (tracked : List String)
    (disk : List (String × String)) (history_limit : Option Nat) (now : Nat) :
    RunOnceResult :=
  let state := loadState prevFile
  let cm := compute_patch_digests tracked disk
  let current := cm.1
  let missing := cm.2
  let det := detect_changes state.digests current missing
  let changed := det.1
  let details := det.2
  let summary := summarize_change_details details
  let digests1 := missing.foldl (fun acc nm => dictPop acc nm) state.digests
  let digests2 := dictUpdate digests1 current
  let st2 : AgentState := ⟨digests2, state.history, state.next_run_id⟩
  let rec1 := st2.record_run now changed missing history_limit none details summary
  let file := rec1.1.save history_limit
  let outcome : Except String Unit :=
    if runOnceRenderReportArgs.length = renderReportParamNames.length then Except.ok ()
    else Except.error renderReportTypeError
  ⟨file, outcome, current, missing, changed, details, rec1.2⟩

/-- History stored at the state path, empty when no file exists yet. -/
def fileHistory : Option StateFile → List RunRecord
  | none => []
  | some f => f.history

/-- Outcome of one single-run invocation of `main` (lines 1992-2085):
on an exception from `run_once` the handler reloads the state file
(which `run_once` already rewrote before raising), appends a failure
record, saves, and re-raises; `raised` carries the re-raised message. -/
structure SingleRunOutcome where
  persisted : Option StateFile
  raised : Option String
deriving DecidableEq, Repr

/-- The single-run branch of `main` (lines 1992-2093). The call site
passes `singleRunRunOnceArgs.length` arguments for
`runOnceParamNames.length` parameters; they agree, so the `run_once`
body executes. -/
def single_run_attempt (file : Option StateFile) (tracked : List String)
    (disk : List (String × String)) (history_limit : Option Nat) (now : Nat) :
    SingleRunOutcome :=
  if singleRunRunOnceArgs.length = runOnceParamNames.length then
    let r := run_once file tracked disk history_limit now
    match r.outcome with
    | Except.ok _ => ⟨some r.persisted, none⟩
    | Except.error msg =>
      let fstate := loadState (some r.persisted)
      let rec1 := fstate.record_run now [] [] history_limit (some msg) [] []
      ⟨some (rec1.1.save history_limit), some msg⟩
  else
    let fstate := loadState file
    let rec1 := fstate.record_run now [] [] history_limit (some loopCallTypeError) [] []
    ⟨some (rec1.1.save history_limit), some loopCallTypeError⟩

/-- State of the continuous-mode loop in `main` (lines 1838-1958). -/
structure LoopState where
  file : Option StateFile
  iteration : Nat
  terminated : Bool
deriving DecidableEq, Repr

/-- One iteration of the continuous-mode loop (lines 1840-1958). The
call site omits `log_file_enabled` (`loopModeRunOnceArgs` has 21 entries
for 22 parameters), so binding fails with a `TypeError` before the
`run_once` body runs; the handler then records a failure, saves, sleeps
and continues. The iteration cap (`if args.max_iterations and iteration
>= args.max_iterations: break`, lines 1952-1957, with Python falsy zero)
is checked only on the success path; the failure path `continue`s past
it. -/
def loop_iter (tracked : List String) (disk : List (String × String))
    (history_limit : Option Nat) (maxIterations : Option Nat) (now : Nat)
    (ls : LoopState) : LoopState :=
  if ls.terminated then ls
  else
    let it := ls.iteration + 1
    if loopModeRunOnceArgs.length = runOnceParamNames.length then
      let r := run_once ls.file tracked disk history_limit now
      match r.outcome with
      | Except.ok _ =>
        let term := match maxIterations with
          | some m => decide (m ≠ 0 ∧ m ≤ it)
          | none => false
        ⟨some r.persisted, it, term⟩
      | Except.error msg =>
        let fstate := loadState (some r.persisted)
        let rec1 := fstate.record_run now [] [] history_limit (some msg) [] []
        ⟨some (rec1.1.save history_limit), it, false⟩
    else
      let fstate := loadState ls.file
      let rec1 := fstate.record_run now [] [] history_limit (some loopCallTypeError) [] []
      ⟨some (rec1.1.save history_limit), it, false⟩

/-- Iterate the continuous-mode loop a given number of times. -/
def loop_run (tracked : List String) (disk : List (String × String))
    (history_limit : Option Nat) (maxIterations : Option Nat) (now : Nat) :
    Nat → LoopState → LoopState
  | 0, ls => ls
  | n + 1, ls =>
    loop_run tracked disk history_limit maxIterations now n
      (loop_iter tracked disk history_limit maxIterations now ls)

/-- Directory listing sorted ascending by name (Python `sorted(...)` over
`snapshot_dir.iterdir()`). -/
def pySortedAscending (l : List String) : List String :=
  List.insertionSort (fun a b => a ≤ b) l

/-- `prune_snapshots` (lines 446-459) over the list of snapshot
subdirectory names: no-op when retention is null or non-positive (a
missing snapshot root is the empty listing); otherwise sort by name and
delete the oldest entries beyond the retention count. Returns the
removed names and the surviving listing. -/
def prune_snapshots (dirs : List String) : Option Int → List String × List String
  | none => ([], dirs)
  | some r =>
    if r ≤ 0 then ([], dirs)
    else if (pySortedAscending dirs).length ≤ r.toNat then ([], dirs)
    else ((pySortedAscending dirs).take ((pySortedAscending dirs).length - r.toNat),
          (pySortedAscending dirs).drop ((pySortedAscending dirs).length - r.toNat))

/-- `snapshot_patches` (lines 462-496) restricted to its effect on the
snapshot directory listing: disabled or idle runs only prune; a
change-bearing run first creates the timestamped subdirectory
(`mkdir(exist_ok=True)`, so an already-present name is reused) and then
prunes. The file copies into the new directory do not affect the
listing. Returns (created directory, removed directories, listing after
the run). -/
def snapshot_patches (dirs : List String) (changed : List String)
    (newDirName : String) (enabled : Bool) (retention : Option Int) :
    Option String × List String × List String :=
  if ¬enabled then
    let p := prune_snapshots dirs retention
    (none, p.1, p.2)
  else if changed = [] then
    let p := prune_snapshots dirs retention
    (none, p.1, p.2)
  else
    let dirs2 := if newDirName ∈ dirs then dirs else dirs ++ [newDirName]
    let p := prune_snapshots dirs2 retention
    (some newDirName, p.1, p.2)

/-- One run as the snapshot subsystem sees it: what changed, the
timestamp-derived directory name, and whether snapshots are enabled.
Every run of `run_once` reaches `snapshot_patches` through `apply_plan`
(lines 499-531), both on the idle and on the change-bearing branch. -/
structure SnapshotRun where
  changed : List String
  newDirName : String
  enabled : Bool
deriving DecidableEq, Repr

/-- The snapshot listing after each run of a sequence. -/
def snapshotDirsAfter (retention : Option Int) (dirs : List String) :
    List SnapshotRun → List (List String)
  | [] => []
  | run :: rest =>
    let d := (snapshot_patches dirs run.changed run.newDirName run.enabled retention).2.2
    d :: snapshotDirsAfter retention d rest

/-- Observable content of the state file at some instant: either a
complete JSON payload or the truncated file `path.open("w")` leaves
behind before `json.dump` has written the payload. -/
inductive FileContent where
  | full (f : StateFile)
  | truncated
deriving DecidableEq, Repr

/-- The sequence of contents a reader of the state path can observe
around `AgentState.save` (lines 330-341): the previous content, then
the truncated file (`path.open("w")` truncates in place — there is no
temporary file and no rename), then the fully written new payload. -/
def saveObservableTrace (prev : FileContent) (st : AgentState)
    (history_limit : Option Nat) : List FileContent :=
  [prev, FileContent.truncated, FileContent.full (st.save history_limit)]

theorem mem_firstDedupAux (l : List String) :
    ∀ (seen : List String) (x : String),
      x ∈ firstDedupAux seen l ↔ x ∈ l ∧ x ∉ seen := by
  induction l with
  | nil => intro seen x; simp [firstDedupAux]
  | cons y ys ih =>
    intro seen x
    by_cases hy : y ∈ seen
    · rw [firstDedupAux, if_pos hy, ih]
      simp only [List.mem_cons]
      constructor
      · rintro ⟨h1, h2⟩; exact ⟨Or.inr h1, h2⟩
      · rintro ⟨h1 | h1, h2⟩
        · exact absurd (h1 ▸ hy) h2
        · exact ⟨h1, h2⟩
    · rw [firstDedupAux, if_neg hy]
      simp only [List.mem_cons, ih]
      constructor
      · rintro (h | ⟨h1, h2⟩)
        · exact ⟨Or.inl h, h ▸ hy⟩
        · exact ⟨Or.inr h1, fun hs => h2 (Or.inr hs)⟩
      · rintro ⟨h1 | h1, h2⟩
        · exact Or.inl h1
        · by_cases hxy : x = y
          · exact Or.inl hxy
          · refine Or.inr ⟨h1, fun hc => ?_⟩
            rcases hc with h | h
            · exact hxy h
            · exact h2 h

theorem nodup_firstDedupAux (l : List String) :
    ∀ seen : List String, (firstDedupAux seen l).Nodup := by
  induction l with
  | nil => intro seen; simp [firstDedupAux]
  | cons y ys ih =>
    intro seen
    by_cases hy : y ∈ seen
    · rw [firstDedupAux, if_pos hy]; exact ih seen
    · rw [firstDedupAux, if_neg hy]
      refine List.nodup_cons.mpr ⟨fun hc => ?_, ih _⟩
      exact ((mem_firstDedupAux ys _ y).mp hc).2 (List.mem_cons_self _ _)

theorem dictGet_eq_none {α : Type} (d : List (String × α)) (k : String)
    (h : k ∉ dictKeys d) : dictGet d k = none := by
  induction d with
  | nil => rfl
  | cons p rest ih =>
    obtain ⟨pk, pv⟩ := p
    simp only [dictKeys, List.map_cons, List.mem_cons] at h
    push_neg at h
    rw [dictGet, if_neg (fun he => h.1 he.symm)]
    exact ih (by simpa [dictKeys] using h.2)

theorem dictHasKey_of_dictGet {α : Type} (d : List (String × α)) (q : String)
    (w : α) (h : dictGet d q = some w) : dictHasKey d q = true := by
  induction d with
  | nil => simp [dictGet] at h
  | cons p rest ih =>
    obtain ⟨pk, pv⟩ := p
    rw [dictGet] at h
    by_cases hp : pk = q
    · simp [dictHasKey, hp]
    · rw [if_neg hp] at h
      simp only [dictHasKey, List.any_cons] at ih ⊢
      simp [ih h]

theorem dictGet_replace_ne {α : Type} (d : List (String × α)) (k : String)
    (v : α) (q : String) (hq : q ≠ k) :
    dictGet (d.map (fun p => if p.1 = k then (k, v) else p)) q = dictGet d q := by
  induction d with
  | nil => rfl
  | cons p rest ih =>
    obtain ⟨pk, pv⟩ := p
    by_cases hpk : pk = k
    · subst hpk
      simp only [List.map_cons, if_pos rfl]
      rw [dictGet, dictGet, if_neg (fun h => hq h.symm), if_neg (fun h => hq h.symm)]
      exact ih
    · simp only [List.map_cons, if_neg hpk]
      rw [dictGet, dictGet]
      by_cases hpq : pk = q
      · rw [if_pos hpq, if_pos hpq]
      · rw [if_neg hpq, if_neg hpq]; exact ih

theorem dictGet_replace_self {α : Type} (d : List (String × α)) (k : String)
    (v : α) (hk : dictHasKey d k = true) :
    dictGet (d.map (fun p => if p.1 = k then (k, v) else p)) k = some v := by
  induction d with
  | nil => simp [dictHasKey] at hk
  | cons p rest ih =>
    obtain ⟨pk, pv⟩ := p
    by_cases hpk : pk = k
    · simp only [List.map_cons, if_pos hpk]
      rw [dictGet, if_pos rfl]
    · simp only [List.map_cons, if_neg hpk]
      rw [dictGet, if_neg hpk]
      refine ih ?_
      simp only [dictHasKey, List.any_cons] at hk
      rcases Bool.or_eq_true_iff.mp hk with h | h
      · exact absurd (by simpa using h) hpk
      · exact h

theorem dictGet_append_single {α : Type} (d : List (String × α)) (k : String)
    (v : α) (q : String) :
    dictGet (d ++ [(k, v)]) q
      = match dictGet d q with
        | some w => some w
        | none => if q = k then some v else none := by
  induction d with
  | nil =>
    show dictGet [(k, v)] q = if q = k then some v else none
    rw [dictGet]
    by_cases h : q = k
    · rw [if_pos h.symm, if_pos h]
    · rw [if_neg (fun he => h he.symm), if_neg h]
      rfl
  | cons p rest ih =>
    obtain ⟨pk, pv⟩ := p
    rw [List.cons_append, dictGet, dictGet]
    by_cases hpq : pk = q
    · rw [if_pos hpq, if_pos hpq]
    · rw [if_neg hpq, if_neg hpq]; exact ih

theorem dictGet_dictSet {α : Type} (d : List (String × α)) (k : String) (v : α)
    (q : String) :
    dictGet (dictSet d k v) q = if q = k then some v else dictGet d q := by
  unfold dictSet
  by_cases hk : dictHasKey d k
  · rw [if_pos hk]
    by_cases hq : q = k
    · subst hq; rw [if_pos rfl]; exact dictGet_replace_self d q v hk
    · rw [if_neg hq]; exact dictGet_replace_ne d k v q hq
  · rw [if_neg hk, dictGet_append_single]
    cases hg : dictGet d q with
    | none => rfl
    | some w =>
      by_cases hq : q = k
      · subst hq; exact absurd (dictHasKey_of_dictGet d q w hg) hk
      · simp [hq]

theorem dictGet_dictUpdate {α : Type} (other : List (String × α)) :
    ∀ base : List (String × α), (dictKeys other).Nodup → ∀ q : String,
      dictGet (dictUpdate base other) q
        = match dictGet other q with
          | some v => some v
          | none => dictGet base q := by
  induction other with
  | nil => intro base _ q; rfl
  | cons p rest ih =>
    intro base hnd q
    obtain ⟨pk, pv⟩ := p
    have hnd1 : (pk :: dictKeys rest).Nodup := hnd
    have hnd2 := List.nodup_cons.mp hnd1
    show dictGet (dictUpdate (dictSet base pk pv) rest) q = _
    rw [ih _ hnd2.2 q]
    by_cases hq : q = pk
    · subst hq
      have hr : dictGet rest q = none := dictGet_eq_none rest q hnd2.1
      simp [hr, dictGet, dictGet_dictSet]
    · have hq2 : ¬ pk = q := fun h => hq h.symm
      cases hg : dictGet rest q with
      | none => simp [hg, dictGet, hq2, hq, dictGet_dictSet]
      | some w => simp [hg, dictGet, hq2]

theorem dictGet_dictPop {α : Type} (d : List (String × α)) (k q : String) :
    dictGet (dictPop d k) q = if q = k then none else dictGet d q := by
  induction d with
  | nil => simp [dictPop, dictGet]
  | cons p rest ih =>
    obtain ⟨pk, pv⟩ := p
    by_cases hpk : pk = k
    · subst hpk
      have : dictPop ((pk, pv) :: rest) pk = dictPop rest pk := by
        simp [dictPop]
      rw [this, ih]
      by_cases hq : q = pk
      · rw [if_pos hq, if_pos hq]
      · rw [if_neg hq, if_neg hq, dictGet, if_neg (fun h => hq h.symm)]
    · have h1 : dictPop ((pk, pv) :: rest) k = (pk, pv) :: dictPop rest k := by
        simp [dictPop, hpk]
      rw [h1, dictGet, dictGet, ih]
      by_cases hpq : pk = q
      · have hqk : ¬ q = k := fun h => hpk (hpq.trans h)
        rw [if_pos hpq, if_neg hqk, if_pos hpq]
      · by_cases hqk : q = k
        · rw [if_neg hpq, if_pos hqk, if_pos hqk]
        · rw [if_neg hpq, if_neg hqk, if_neg hqk, if_neg hpq]

theorem dictGet_popFold {α : Type} (missing : List String) :
    ∀ (d : List (String × α)) (q : String),
      dictGet (missing.foldl (fun acc nm => dictPop acc nm) d) q
        = if q ∈ missing then none else dictGet d q := by
  induction missing with
  | nil => intro d q; simp
  | cons m rest ih =>
    intro d q
    show dictGet (rest.foldl _ (dictPop d m)) q = _
    rw [ih]
    by_cases hq : q ∈ rest
    · rw [if_pos hq, if_pos (List.mem_cons_of_mem _ hq)]
    · rw [if_neg hq, dictGet_dictPop]
      by_cases hqm : q = m
      · rw [if_pos hqm, if_pos (List.mem_cons.mpr (Or.inl hqm))]
      · rw [if_neg hqm]
        have hnm : ¬ q ∈ m :: rest := by
          intro hc
          rcases List.mem_cons.mp hc with h | h
          · exact hqm h
          · exact hq h
        rw [if_neg hnm]

theorem dictGet_filterMap_of_nodup {β : Type} (f : String → Option (String × β))
    (hf : ∀ x p, f x = some p → p.1 = x) :
    ∀ names : List String, names.Nodup → ∀ (name : String) (d : β),
      name ∈ names → f name = some (name, d) →
      dictGet (names.filterMap f) name = some d := by
  intro names
  induction names with
  | nil => intro _ name d h; simp at h
  | cons x xs ih =>
    intro hnd name d hmem hname
    rcases List.mem_cons.mp hmem with hx | hx
    · subst hx
      rw [List.filterMap_cons_some hname, dictGet, if_pos rfl]
    · have hxne : x ≠ name := by
        rintro rfl
        exact (List.nodup_cons.mp hnd).1 hx
      have hnd2 := (List.nodup_cons.mp hnd).2
      cases hfx : f x with
      | none =>
        rw [List.filterMap_cons_none hfx]
        exact ih hnd2 name d hx hname
      | some p =>
        rw [List.filterMap_cons_some hfx]
        obtain ⟨pk, pv⟩ := p
        have hpk : pk = x := hf x (pk, pv) hfx
        subst hpk
        rw [dictGet, if_neg hxne]
        exact ih hnd2 name d hx hname

theorem dictKeys_computeDigests_sublist (disk : List (String × String)) :
    ∀ names : List String,
      (dictKeys (computeDigestsAux disk names).1).Sublist names := by
  intro names
  induction names with
  | nil => simp [computeDigestsAux, dictKeys]
  | cons name rest ih =>
    cases h : dictGet disk name with
    | none =>
      have : (computeDigestsAux disk (name :: rest)).1
          = (computeDigestsAux disk rest).1 := by
        simp [computeDigestsAux, h]
      rw [this]
      exact ih.cons name
    | some dg =>
      have : (computeDigestsAux disk (name :: rest)).1
          = (name, dg) :: (computeDigestsAux disk rest).1 := by
        simp [computeDigestsAux, h]
      rw [this]
      exact ih.cons₂ name

theorem nodup_current_keys (tracked : List String) (disk : List (String × String)) :
    (dictKeys (compute_patch_digests tracked disk).1).Nodup :=
  (dictKeys_computeDigests_sublist disk (firstDedup tracked)).nodup
    (nodup_firstDedupAux tracked [])

/-- The `record_run` arguments a single run supplies (success or
failure): `main` and `run_once` both call `record_run` with some
combination of these and then `save` the state back to the state path. -/
structure RunEventArgs where
  now : Nat
  changed : List String
  missing : List String
  error : Option String
  details : List (String × ChangeDetail)
  summary : List (String × Nat)

/-- One run at the `record_run` level: reload the state file (every run
reloads from disk, lines 1341, 1868, 2019), append one record, save.
Returns the new state file and the assigned run id. -/
def runStep (limit : Option Nat) (file : Option StateFile) (ev : RunEventArgs) :
    Option StateFile × Nat :=
  let st := loadState file
  let r := st.record_run ev.now ev.changed ev.missing limit ev.error ev.details ev.summary
  (some (r.1.save limit), r.2)

/-- The run ids assigned by `record_run` across a sequence of runs, each
persisting through `save` and reloading through `load`. -/
def assignedRunIds (limit : Option Nat) (file : Option StateFile) :
    List RunEventArgs → List Nat
  | [] => []
  | ev :: rest =>
    (runStep limit file ev).2 :: assignedRunIds limit (runStep limit file ev).1 rest

theorem loadState_runStep_next (limit : Option Nat) (file : Option StateFile)
    (ev : RunEventArgs) :
    (loadState (runStep limit file ev).1).next_run_id
      = (loadState file).next_run_id + 1 := by
  show (AgentState.load (((loadState file).record_run ev.now ev.changed ev.missing
      limit ev.error ev.details ev.summary).1.save limit)).next_run_id = _
  simp [AgentState.load, AgentState.record_run, AgentState.save]

theorem assignedRunIds_eq (limit : Option Nat) (evs : List RunEventArgs) :
    ∀ file : Option StateFile,
      assignedRunIds limit file evs
        = List.range' (loadState file).next_run_id evs.length := by
  induction evs with
  | nil => intro file; rfl
  | cons ev rest ih =>
    intro file
    show (runStep limit file ev).2
        :: assignedRunIds limit (runStep limit file ev).1 rest = _
    rw [ih, loadState_runStep_next, List.length_cons, List.range'_succ]
    rfl

theorem prune_remaining_bound (dirs : List String) (K : Int) (hK : 0 < K) :
    ((prune_snapshots dirs (some K)).2).length ≤ K.toNat := by
  rw [prune_snapshots, if_neg (by omega : ¬ K ≤ 0)]
  have hlen : (pySortedAscending dirs).length = dirs.length :=
    List.length_insertionSort _ dirs
  by_cases hc : (pySortedAscending dirs).length ≤ K.toNat
  · rw [if_pos hc]
    calc dirs.length = (pySortedAscending dirs).length := hlen.symm
      _ ≤ K.toNat := hc
  · rw [if_neg hc]
    simp only [List.length_drop]
    omega

theorem snapshot_run_bound (dirs changed : List String) (nm : String)
    (e : Bool) (K : Int) (hK : 0 < K) :
    ((snapshot_patches dirs changed nm e (some K)).2.2).length ≤ K.toNat := by
  unfold snapshot_patches
  by_cases he : ¬ e = true
  · rw [if_pos he]; exact prune_remaining_bound dirs K hK
  · rw [if_neg he]
    by_cases hch : changed = []
    · rw [if_pos hch]; exact prune_remaining_bound dirs K hK
    · rw [if_neg hch]
      by_cases hnm : nm ∈ dirs
      · rw [if_pos hnm]; exact prune_remaining_bound dirs K hK
      · rw [if_neg hnm]; exact prune_remaining_bound (dirs ++ [nm]) K hK

theorem snapshotDirsAfter_bound (K : Int) (hK : 0 < K) :
    ∀ (runs : List SnapshotRun) (dirs0 after : List String),
      after ∈ snapshotDirsAfter (some K) dirs0 runs → after.length ≤ K.toNat := by
  intro runs
  induction runs with
  | nil => intro dirs0 after h; simp [snapshotDirsAfter] at h
  | cons run rest ih =>
    intro dirs0 after h
    rcases List.mem_cons.mp h with h1 | h1
    · subst h1
      exact snapshot_run_bound dirs0 run.changed run.newDirName run.enabled K hK
    · exact ih _ after h1

theorem prune_removed_le_kept (dirs : List String) (r : Option Int) (x y : String)
    (hx : x ∈ (prune_snapshots dirs r).1) (hy : y ∈ (prune_snapshots dirs r).2) :
    x ≤ y := by
  match r with
  | none => simp [prune_snapshots] at hx
  | some K =>
    by_cases hK : K ≤ 0
    · simp [prune_snapshots, hK] at hx
    · rw [prune_snapshots, if_neg hK] at hx hy
      by_cases hc : (pySortedAscending dirs).length ≤ K.toNat
      · rw [if_pos hc] at hx
        simp at hx
      · rw [if_neg hc] at hx hy
        have hsorted : List.Pairwise (fun a b : String => a ≤ b)
            (pySortedAscending dirs) :=
          List.sorted_insertionSort _ dirs
        set n := (pySortedAscending dirs).length - K.toNat with hn
        have hsplit := List.take_append_drop n (pySortedAscending dirs)
        rw [← hsplit] at hsorted
        have h3 := (List.pairwise_append.mp hsorted).2.2
        exact h3 x hx y hy

/-- C8: `detect_changes` classifies exactly as the spec states on the
four reference cases: previous `{}` and current `{A: d1}` yields
`added`; identical non-missing digests yield no entry; a tracked file
with a previous digest that is absent from disk yields `missing`;
differing digests yield `modified`. -/
theorem c8_classification_cases :
    (detect_changes [] [("A", "d1")] []).2
      = [("A", ⟨none, some "d1", "added"⟩)]
    ∧ (detect_changes [("A", "d1")] [("A", "d1")] []).2 = []
    ∧ dictGet (detect_changes [("A", "d1")] [] ["A"]).2 "A"
      = some ⟨some "d1", none, "missing"⟩
    ∧ dictGet (detect_changes [("A", "d1")] [("A", "d2")] []).2 "A"
      = some ⟨some "d1", some "d2", "modified"⟩ := by
  refine ⟨rfl, rfl, rfl, rfl⟩

/-- C10: `run_once` never returns normally. After the updated state has
been saved to the state path, its `render_report` call supplies 33
positional arguments to a 32-parameter function, so every execution
attempt of `run_once` ends in a `TypeError` rather than a returned
`RunResult`. -/
theorem c10_run_once_always_raises_at_render_report
    (prevFile : Option StateFile) (tracked : List String)
    (disk : List (String × String)) (history_limit : Option Nat) (now : Nat) :
    (run_once prevFile tracked disk history_limit now).outcome
      = Except.error renderReportTypeError
    ∧ renderReportParamNames.length = 32
    ∧ runOnceRenderReportArgs.length = 33 :=
  ⟨rfl, rfl, rfl⟩

/-- C1 is violated by the code: an execution attempt of `run_once` that
fails (here: the `TypeError` its `render_report` call always raises)
has nonetheless advanced the digest map persisted at the state path,
because `state.save` at line 1365 runs before `render_report` at line
1367. Starting from a stored map with `A` at digest `d1` and a disk
where `A` hashes to `d2`, the attempt errors yet the persisted map now
holds `d2`. -/
theorem c1_failing_attempt_advances_persisted_digests :
    (run_once (some ⟨[("A", "d1")], [], 1⟩) ["A"] [("A", "d2")] (some 20) 100).outcome
      = Except.error renderReportTypeError
    ∧ (run_once (some ⟨[("A", "d1")], [], 1⟩) ["A"] [("A", "d2")] (some 20) 100).persisted.digests
      = [("A", "d2")]
    ∧ (loadState (some ⟨[("A", "d1")], [], 1⟩)).digests = [("A", "d1")] := by
  refine ⟨rfl, by decide, rfl⟩

/-- C2 is violated by the code in single-run mode: one failing execution
attempt persists two `RunRecord`s, not one. `run_once` records and saves
a success-shaped record (error `none`) before its `render_report` call
raises, and the handler in `main` then reloads that file and appends a
second, failure record. From a fresh state the persisted history after
one attempt holds records with errors `[none, some TypeError]`. -/
theorem c2_failing_single_run_appends_two_records :
    (fileHistory (single_run_attempt none ["A"] [("A", "d1")] (some 20) 5).persisted).map
        RunRecord.error
      = [none, some renderReportTypeError]
    ∧ (fileHistory (single_run_attempt none ["A"] [("A", "d1")] (some 20) 5).persisted).length
      = 2
    ∧ (single_run_attempt none ["A"] [("A", "d1")] (some 20) 5).raised
      = some renderReportTypeError := by
  refine ⟨by decide, by decide, by decide⟩

/-- C4 is violated by the code: in continuous mode the `run_once` call
omits `log_file_enabled` (21 positional arguments for 22 parameters),
so every iteration raises a `TypeError` before the run body starts, and
the iteration cap is only checked on the success path. With
max-iterations 5, after five iterations from a fresh state all five
persisted records carry an error (not exactly one), the loop has not
terminated, and a sixth iteration appends a sixth record. -/
theorem c4_loop_every_iteration_fails_and_never_terminates :
    (fileHistory (loop_run ["A"] [("A", "d1")] (some 20) (some 5) 0 5
        ⟨none, 0, false⟩).file).length = 5
    ∧ ((fileHistory (loop_run ["A"] [("A", "d1")] (some 20) (some 5) 0 5
        ⟨none, 0, false⟩).file).filter (fun r => r.error.isSome)).length = 5
    ∧ (loop_run ["A"] [("A", "d1")] (some 20) (some 5) 0 5
        ⟨none, 0, false⟩).terminated = false
    ∧ (fileHistory (loop_run ["A"] [("A", "d1")] (some 20) (some 5) 0 6
        ⟨none, 0, false⟩).file).length = 6
    ∧ loopModeRunOnceArgs.length = 21
    ∧ runOnceParamNames.length = 22 := by
  refine ⟨by decide, by decide, by decide, by decide, rfl, rfl⟩

/-- C3 is violated by the code: `AgentState.save` opens the state file
with mode `w` (truncating it in place) and then writes the payload;
there is no temporary file and no rename. A reader during the save can
observe the truncated file, which is neither the complete previous
state nor the complete new state. -/
theorem c3_truncated_state_observable :
    FileContent.truncated
      ∈ saveObservableTrace (FileContent.full ⟨[("A", "d0")], [], 1⟩)
          ⟨[("A", "d1")], [], 2⟩ (some 20)
    ∧ FileContent.truncated ≠ FileContent.full ⟨[("A", "d0")], [], 1⟩
    ∧ FileContent.truncated
      ≠ FileContent.full (AgentState.save ⟨[("A", "d1")], [], 2⟩ (some 20)) := by
  refine ⟨by decide, by decide, by decide⟩

/-- C5 is violated by the code: a tracked file missing on two
consecutive runs is reported `missing` on both runs, not only on the
transition. Run 1 starts from a stored digest for `A` with `A` absent
from disk and emits `missing` while dropping `A` from the persisted
map; run 2, started from the state file run 1 persisted, emits a
`missing` entry for `A` again. -/
theorem c5_missing_reported_again_on_second_run :
    dictGet (run_once (some ⟨[("A", "d1")], [], 1⟩) ["A"] [] (some 20) 10).details "A"
      = some ⟨some "d1", none, "missing"⟩
    ∧ (run_once (some ⟨[("A", "d1")], [], 1⟩) ["A"] [] (some 20) 10).persisted.digests = []
    ∧ dictGet (run_once
        (some (run_once (some ⟨[("A", "d1")], [], 1⟩) ["A"] [] (some 20) 10).persisted)
        ["A"] [] (some 20) 20).details "A"
      = some ⟨none, none, "missing"⟩ := by
  refine ⟨by decide, by decide, by decide⟩

/-- C6 is violated by the code: the digest map persisted by the save in
`run_once` is not the computed map. Only tracked-but-missing names are
popped; a name no longer tracked at all keeps its stale digest. With a
stored digest for `B` and an empty tracked list, the computed map is
empty but the persisted map still holds `B`. -/
theorem c6_stale_untracked_digest_survives :
    (run_once (some ⟨[("B", "dB")], [], 1⟩) [] [] (some 20) 0).current = []
    ∧ (run_once (some ⟨[("B", "dB")], [], 1⟩) [] [] (some 20) 0).persisted.digests
      = [("B", "dB")]
    ∧ ([("B", "dB")] : List (String × String)) ≠ [] := by
  refine ⟨by decide, by decide, by decide⟩

/-- C5 amended: for every run, every tracked file in the missing list is
emitted by `detect_changes` with status `missing` — on every run in
which it is missing, not only on the transition into that state. -/
theorem c5_missing_reported_every_run (prev current : List (String × String))
    (missing : List String) (name : String) (h : name ∈ missing) :
    dictGet (detect_changes prev current missing).2 name
      = some ⟨dictGet prev name, dictGet current name, "missing"⟩ := by
  have hf : ∀ x p, changeEntry prev current missing x = some p → p.1 = x := by
    intro x p hp
    unfold changeEntry at hp
    by_cases hc : dictGet prev x = dictGet current x ∧ x ∉ missing
    · rw [if_pos hc] at hp; exact absurd hp (by simp)
    · rw [if_neg hc] at hp
      have := Option.some.inj hp
      exact this ▸ rfl
  have hname : changeEntry prev current missing name
      = some (name, ⟨dictGet prev name, dictGet current name, "missing"⟩) := by
    unfold changeEntry
    rw [if_neg (fun hc => hc.2 h), if_pos h]
  have hmem : name ∈ firstDedup (dictKeys prev ++ dictKeys current ++ missing) := by
    refine (mem_firstDedupAux _ _ _).mpr ⟨?_, by simp⟩
    simp [h]
  have hnd := nodup_firstDedupAux (dictKeys prev ++ dictKeys current ++ missing) []
  exact dictGet_filterMap_of_nodup _ hf _ hnd name _ hmem hname

theorem c5_missing_reported_every_run_witness :
    "A" ∈ ["A"]
    ∧ dictGet (detect_changes [] [] ["A"]).2 "A"
      = some ⟨none, none, "missing"⟩ :=
  ⟨by decide, c5_missing_reported_every_run [] [] ["A"] "A" (by decide)⟩

/-- C6 amended: the digest map the save in `run_once` persists is the
previously stored map with the tracked-but-missing names removed and
the current run's digests laid over it. A name with a current digest
maps to that digest; a tracked name missing from disk is dropped; every
other name — including names no longer tracked at all — keeps its
previously stored digest, so stale entries survive. (The save always
completes; the attempt then fails in `render_report`.) -/
theorem c6_persisted_digest_characterization (prevFile : Option StateFile)
    (tracked : List String) (disk : List (String × String))
    (history_limit : Option Nat) (now : Nat) (name : String) :
    dictGet (run_once prevFile tracked disk history_limit now).persisted.digests name
      = match dictGet (run_once prevFile tracked disk history_limit now).current name with
        | some dg => some dg
        | none =>
          if name ∈ (run_once prevFile tracked disk history_limit now).missing then none
          else dictGet (loadState prevFile).digests name := by
  have h1 : (run_once prevFile tracked disk history_limit now).persisted.digests
      = dictUpdate
          ((compute_patch_digests tracked disk).2.foldl
            (fun acc nm => dictPop acc nm) (loadState prevFile).digests)
          (compute_patch_digests tracked disk).1 := rfl
  have h2 : (run_once prevFile tracked disk history_limit now).current
      = (compute_patch_digests tracked disk).1 := rfl
  have h3 : (run_once prevFile tracked disk history_limit now).missing
      = (compute_patch_digests tracked disk).2 := rfl
  rw [h1, h2, h3,
    dictGet_dictUpdate _ _ (nodup_current_keys tracked disk) name,
    dictGet_popFold]
  cases hg : dictGet (compute_patch_digests tracked disk).1 name <;> simp [hg]

/-- C3 amended: `AgentState.save` persists the digest map and the
history truncated to the newest `history_limit` entries, but by an
in-place truncate-then-write of the state file, not an atomic
write-then-replace: the completed write is the full new payload, yet a
mid-save reader can observe the truncated file, an intermediate content
that is neither the previous nor the new state. -/
theorem c3_save_truncates_in_place (prev : FileContent) (st : AgentState)
    (limit : Option Nat) :
    (saveObservableTrace prev st limit).getLast?
      = some (FileContent.full (st.save limit))
    ∧ FileContent.truncated ∈ saveObservableTrace prev st limit
    ∧ (saveObservableTrace prev st limit).head? = some prev
    ∧ (st.save limit).digests = st.digests
    ∧ (∀ l, limit = some l → (st.save limit).history = pySliceLast st.history l)
    ∧ (∀ l, limit = some l → 0 < l → (st.save limit).history.length ≤ l)
    ∧ (limit = none → (st.save limit).history = st.history) := by
  refine ⟨rfl, by simp [saveObservableTrace], rfl, rfl, ?_, ?_, ?_⟩
  · rintro l rfl; rfl
  · rintro l rfl hl
    show (pySliceLast st.history l).length ≤ l
    rw [pySliceLast, if_neg (by omega)]
    simp only [List.length_drop]
    omega
  · rintro rfl; rfl

theorem c3_save_truncates_in_place_witness :
    (AgentState.save ⟨[("A", "d1")], [⟨1, 0, [], [], none, [], []⟩,
        ⟨2, 1, [], [], none, [], []⟩, ⟨3, 2, [], [], none, [], []⟩], 4⟩
      (some 2)).history.length ≤ 2
    ∧ FileContent.truncated
      ∈ saveObservableTrace (FileContent.full ⟨[], [], 1⟩)
          ⟨[("A", "d1")], [⟨1, 0, [], [], none, [], []⟩,
            ⟨2, 1, [], [], none, [], []⟩, ⟨3, 2, [], [], none, [], []⟩], 4⟩ (some 2) :=
  ⟨(c3_save_truncates_in_place (FileContent.full ⟨[], [], 1⟩) _ (some 2)).2.2.2.2.2.1
      2 rfl (by decide),
   (c3_save_truncates_in_place (FileContent.full ⟨[], [], 1⟩) _ (some 2)).2.1⟩

/-- C7: across any sequence of N runs starting from a fresh state —
every run reloading the state file, appending one record through
`record_run` (with any outcome, success or failure) and saving — the
assigned run ids are exactly 1..N in order: each is one more than the
previous, starting at 1, whatever the history limit. -/
theorem c7_run_ids_consecutive_from_one (limit : Option Nat)
    (evs : List RunEventArgs) :
    assignedRunIds limit none evs = List.range' 1 evs.length :=
  assignedRunIds_eq limit evs none

/-- C9: with snapshot retention K > 0, after every run of any sequence
— idle runs and snapshot-disabled runs included, since every branch of
`snapshot_patches` prunes — the snapshot directory listing holds at
most K entries; whenever pruning removes anything, every removed
directory name is ≤ every surviving name (the survivors are the newest
K by name, the suffix of the ascending listing); and a null or
non-positive retention disables pruning entirely. -/
theorem c9_snapshot_retention_bound (K : Int) (hK : 0 < K)
    (dirs0 : List String) (runs : List SnapshotRun) (after : List String)
    (hafter : after ∈ snapshotDirsAfter (some K) dirs0 runs)
    (dirs : List String) (r : Int) (hr : r ≤ 0) :
    after.length ≤ K.toNat
    ∧ (∀ d : List String, ∀ x ∈ (prune_snapshots d (some K)).1,
        ∀ y ∈ (prune_snapshots d (some K)).2, x ≤ y)
    ∧ (∀ d : List String, K.toNat < d.length →
        (prune_snapshots d (some K)).2
          = (pySortedAscending d).drop ((pySortedAscending d).length - K.toNat))
    ∧ prune_snapshots dirs none = ([], dirs)
    ∧ prune_snapshots dirs (some r) = ([], dirs) := by
  refine ⟨snapshotDirsAfter_bound K hK runs dirs0 after hafter, ?_, ?_, rfl, ?_⟩
  · intro d x hx y hy
    exact prune_removed_le_kept d (some K) x y hx hy
  · intro d hd
    have hlen : (pySortedAscending d).length = d.length :=
      List.length_insertionSort _ d
    rw [prune_snapshots, if_neg (by omega : ¬ K ≤ 0),
      if_neg (by omega : ¬ (pySortedAscending d).length ≤ K.toNat)]
  · rw [prune_snapshots, if_pos hr]

theorem c9_snapshot_retention_bound_witness :
    (0 : Int) < 2
    ∧ ["a"] ∈ snapshotDirsAfter (some 2) ["a"] [⟨[], "x", true⟩]
    ∧ (-1 : Int) ≤ 0
    ∧ (["a"] : List String).length ≤ (2 : Int).toNat
    ∧ prune_snapshots ["z"] none = ([], ["z"])
    ∧ prune_snapshots ["z"] (some (-1)) = ([], ["z"]) :=
  ⟨by decide, by decide, by decide,
   (c9_snapshot_retention_bound 2 (by decide) ["a"] [⟨[], "x", true⟩] ["a"]
      (by decide) ["z"] (-1) (by decide)).1,
   (c9_snapshot_retention_bound 2 (by decide) ["a"] [⟨[], "x", true⟩] ["a"]
      (by decide) ["z"] (-1) (by decide)).2.2.2.1,
   (c9_snapshot_retention_bound 2 (by decide) ["a"] [⟨[], "x", true⟩] ["a"]
      (by decide) ["z"] (-1) (by decide)).2.2.2.2⟩
